import Mathlib

/-!
Verification of the git-stats commit aggregation engine
(src/py/git-stats/git_analyzer.py) against its specification.

The Python source is shallowly embedded: strings are handled as List Char,
the pandas DataFrame held in self.df becomes an explicit DfState value,
datetime arithmetic is ported from the CPython date implementation
(days-from-civil and civil-from-days with the 400/100/4 year blocks),
and fallible operations return Except values.
-/

namespace GitStats

/- ## Character and string utilities -/

/-- ASCII digit test, as str.isdigit behaves on the ASCII data produced by
the VCS tool. -/
def isDigitChar (c : Char) : Bool := 48 ≤ c.toNat && c.toNat ≤ 57

/-- Numeric value of an ASCII digit character. -/
def digitVal (c : Char) : Nat := c.toNat - 48

/-- Digit character for a value below ten. -/
def dch : Nat → Char
  | 0 => '0'
  | 1 => '1'
  | 2 => '2'
  | 3 => '3'
  | 4 => '4'
  | 5 => '5'
  | 6 => '6'
  | 7 => '7'
  | 8 => '8'
  | 9 => '9'
  | _ => '*'

/-- Two digit zero padded rendering, as in the ISO dates printed by the VCS. -/
def fmt2 (n : Nat) : List Char := [dch (n / 10), dch (n % 10)]

/-- Four digit zero padded rendering. -/
def fmt4 (n : Nat) : List Char :=
  [dch (n / 1000), dch (n / 100 % 10), dch (n / 10 % 10), dch (n % 10)]

/-- Count of occurrences of a character, modelling the Python count method
for a single character needle. -/
def countChar (c : Char) : List Char → Nat
  | [] => 0
  | d :: ds => (if d == c then 1 else 0) + countChar c ds

/-- Membership test for a character, modelling the Python in operator for a
single character needle. -/
def hasChar (c : Char) (l : List Char) : Bool := l.any (fun d => d == c)

/-- Split on every occurrence of a separator character, modelling the Python
split method with an explicit separator (runs of separators give empty
fields, and the empty input gives one empty field). -/
def splitChar (sep : Char) : List Char → List (List Char)
  | [] => [[]]
  | c :: cs =>
    if c == sep then [] :: splitChar sep cs
    else
      match splitChar sep cs with
      | [] => [[c]]
      | p :: ps => (c :: p) :: ps

/-- Leading and trailing whitespace removal, modelling the Python strip
method. -/
def stripChars (l : List Char) : List Char :=
  ((l.dropWhile Char.isWhitespace).reverse.dropWhile Char.isWhitespace).reverse

/-- Test whether the needle occurs at the head of the haystack. -/
def headMatches : List Char → List Char → Bool
  | [], _ => true
  | _ :: _, [] => false
  | a :: as, b :: bs => a == b && headMatches as bs

/-- Substring containment, modelling the Python in operator for a multi
character needle. -/
def containsSeq (needle : List Char) : List Char → Bool
  | [] => headMatches needle []
  | c :: cs => headMatches needle (c :: cs) || containsSeq needle cs

/-- Decimal value of a digit string, modelling int applied to a string of
digits. -/
def natOfDigits (l : List Char) : Nat := l.foldl (fun a c => 10 * a + digitVal c) 0

/-- The digit characters of a string in order, modelling
filter(str.isdigit, s). -/
def digitsOf (l : List Char) : List Char := l.filter isDigitChar

/- ## Calendar model (Python datetime.date arithmetic) -/

/-- Calendar date, the value stored by the date method of a Python
datetime. -/
structure Date where
  year : Nat
  month : Nat
  day : Nat
deriving DecidableEq, Repr

/-- Timezone naive timestamp, the value produced by strptime. -/
structure Timestamp where
  date : Date
  hour : Nat
  minute : Nat
  second : Nat
deriving DecidableEq, Repr

/-- Gregorian leap year rule, as in the Python calendar logic. -/
def isLeap (y : Nat) : Bool := (y % 4 == 0 && y % 100 != 0) || y % 400 == 0

/-- Length of a month, as validated by the Python datetime constructor. -/
def daysInMonth (y m : Nat) : Nat :=
  if m = 2 then (if isLeap y then 29 else 28)
  else if m = 4 ∨ m = 6 ∨ m = 9 ∨ m = 11 then 30
  else 31

/-- Days in a non leap year before the first of the given month, the DAYS
BEFORE MONTH table of the CPython date implementation. -/
def daysBeforeMonthTbl : Nat → Nat
  | 1 => 0
  | 2 => 31
  | 3 => 59
  | 4 => 90
  | 5 => 120
  | 6 => 151
  | 7 => 181
  | 8 => 212
  | 9 => 243
  | 10 => 273
  | 11 => 304
  | 12 => 334
  | _ => 0

/-- Length of a month in a non leap year, the DAYS IN MONTH table of the
CPython date implementation. -/
def daysInMonthTbl : Nat → Nat
  | 1 => 31
  | 2 => 28
  | 3 => 31
  | 4 => 30
  | 5 => 31
  | 6 => 30
  | 7 => 31
  | 8 => 31
  | 9 => 30
  | 10 => 31
  | 11 => 30
  | 12 => 31
  | _ => 0

/-- Days in year y before the first of month m, including the leap day. -/
def daysBeforeMonth (y m : Nat) : Nat :=
  daysBeforeMonthTbl m + (if 2 < m && isLeap y then 1 else 0)

/-- Days before January first of year y, as in the CPython date
implementation. -/
def daysBeforeYear (y : Nat) : Nat :=
  let p := y - 1
  p * 365 + p / 4 - p / 100 + p / 400

/-- Proleptic Gregorian ordinal of a date, day one being January first of
year one, as returned by the Python toordinal method. -/
def toOrdinal (d : Date) : Nat :=
  daysBeforeYear d.year + daysBeforeMonth d.year d.month + d.day

/-- Zero based weekday with Monday as zero, as returned by the Python
weekday method. -/
def pyWeekday (d : Date) : Nat := (toOrdinal d + 6) % 7

/-- Date of a proleptic Gregorian ordinal, ported from the CPython ord2ymd
routine with its 400, 100 and 4 year blocks. -/
def fromOrdinal (nn : Nat) : Date :=
  let n0 := nn - 1
  let n400 := n0 / 146097
  let r400 := n0 % 146097
  let n100 := r400 / 36524
  let r100 := r400 % 36524
  let n4 := r100 / 1461
  let r4 := r100 % 1461
  let n1 := r4 / 365
  let n := r4 % 365
  let year := n400 * 400 + 1 + n100 * 100 + n4 * 4 + n1
  if n1 = 4 ∨ n100 = 4 then ⟨year - 1, 12, 31⟩
  else
    let leap := n1 == 3 && (n4 != 24 || n100 == 3)
    let month := (n + 50) / 32
    let preceding := daysBeforeMonthTbl month + (if 2 < month && leap then 1 else 0)
    if n < preceding then
      let month2 := month - 1
      let preceding2 :=
        preceding - (daysInMonthTbl month2 + (if month2 == 2 && leap then 1 else 0))
      ⟨year, month2, n - preceding2 + 1⟩
    else ⟨year, month, n - preceding + 1⟩

/-- Date arithmetic x - timedelta(days=k) followed by the date method, as
used for the week bucket. -/
def subDays (d : Date) (k : Nat) : Date := fromOrdinal (toOrdinal d - k)

/-- Day bucket of a timestamp: the calendar date (line 278 of the source). -/
def dayBucket (ts : Timestamp) : Date := ts.date

/-- Week bucket of a timestamp: the date minus its zero based weekday
offset (lines 280 to 282 of the source). -/
def weekBucket (ts : Timestamp) : Date := subDays ts.date (pyWeekday ts.date)

/-- Month bucket of a timestamp: the first day of its calendar month
(lines 284 to 286 of the source). -/
def monthBucket (ts : Timestamp) : Date := ⟨ts.date.year, ts.date.month, 1⟩

/- ## Timestamp parsing (strptime with format %Y-%m-%d %H:%M:%S) -/

/-- Consume one expected literal character. -/
def expectChar (c : Char) : List Char → Option (List Char)
  | [] => none
  | d :: ds => if d == c then some ds else none

/-- Consume exactly four digits, the strptime pattern for %Y. -/
def parse4 : List Char → Option (Nat × List Char)
  | c1 :: c2 :: c3 :: c4 :: rest =>
    if isDigitChar c1 && isDigitChar c2 && isDigitChar c3 && isDigitChar c4 then
      some (1000 * digitVal c1 + 100 * digitVal c2 + 10 * digitVal c3 + digitVal c4, rest)
    else none
  | _ => none

/-- Consume one or two digits: two digits when their value satisfies twoOk,
else one digit when its value satisfies oneOk. This mirrors the ordered
alternations of the strptime field patterns. -/
def parse2Flex (twoOk oneOk : Nat → Bool) : List Char → Option (Nat × List Char)
  | c1 :: c2 :: rest =>
    if isDigitChar c1 && isDigitChar c2 && twoOk (10 * digitVal c1 + digitVal c2) then
      some (10 * digitVal c1 + digitVal c2, rest)
    else if isDigitChar c1 && oneOk (digitVal c1) then some (digitVal c1, c2 :: rest)
    else none
  | [c1] => if isDigitChar c1 && oneOk (digitVal c1) then some (digitVal c1, []) else none
  | [] => none

/-- Month field of strptime, pattern 1[0-2] or 0[1-9] or [1-9]. -/
def parseMonth : List Char → Option (Nat × List Char) :=
  parse2Flex (fun v => decide (1 ≤ v) && decide (v ≤ 12))
    (fun v => decide (1 ≤ v) && decide (v ≤ 9))

/-- Day field of strptime, pattern 3[01] or [12] digit or 0[1-9] or [1-9]. -/
def parseDay : List Char → Option (Nat × List Char) :=
  parse2Flex (fun v => decide (1 ≤ v) && decide (v ≤ 31))
    (fun v => decide (1 ≤ v) && decide (v ≤ 9))

/-- Hour field of strptime, pattern 2[0-3] or [0-1] digit or digit. -/
def parseHour : List Char → Option (Nat × List Char) :=
  parse2Flex (fun v => decide (v ≤ 23)) (fun _ => true)

/-- Minute field of strptime, pattern [0-5] digit or digit. -/
def parseMinute : List Char → Option (Nat × List Char) :=
  parse2Flex (fun v => decide (v ≤ 59)) (fun _ => true)

/-- Second field of strptime, pattern 6[0-1] or [0-5] digit or digit. -/
def parseSecond : List Char → Option (Nat × List Char) :=
  parse2Flex (fun v => decide (v ≤ 61)) (fun _ => true)

/-- Model of datetime.strptime(s, %Y-%m-%d %H:%M:%S): match the whole
string against the format, then apply the range validation of the datetime
constructor (year 1 to 9999, day within the month, second at most 59). -/
def parseDateTime (l : List Char) : Option Timestamp := do
  let (y, r1) ← parse4 l
  let r2 ← expectChar '-' r1
  let (mo, r3) ← parseMonth r2
  let r4 ← expectChar '-' r3
  let (d, r5) ← parseDay r4
  let r6 ← expectChar ' ' r5
  let (h, r7) ← parseHour r6
  let r8 ← expectChar ':' r7
  let (mi, r9) ← parseMinute r8
  let r10 ← expectChar ':' r9
  let (s, r11) ← parseSecond r10
  if r11.isEmpty then
    if 1 ≤ y ∧ y ≤ 9999 ∧ d ≤ daysInMonth y mo ∧ s ≤ 59 then
      some ⟨⟨y, mo, d⟩, h, mi, s⟩
    else none
  else none

/-- Zero padded rendering of a timestamp in the shape YYYY-MM-DD HH:MM:SS,
the bare shape produced by the VCS log with ISO dates. -/
def fmtDateTime (y mo d h mi s : Nat) : List Char :=
  fmt4 y ++ '-' :: fmt2 mo ++ '-' :: fmt2 d ++ ' ' ::
    fmt2 h ++ ':' :: fmt2 mi ++ ':' :: fmt2 s

/-- The UTC offset token -0700 named by the specification. -/
def offNeg0700 : List Char := ['-', '0', '7', '0', '0']

/-- The UTC offset token +0200 named by the specification. -/
def offPos0200 : List Char := ['+', '0', '2', '0', '0']

/-- Date handling of the commit normalizer (lines 130 to 147 of the
source): when the raw field contains a plus sign or more than two dashes it
is split on spaces and, when at least three parts result, only the first
two parts are parsed, discarding the timezone offset; otherwise the whole
field is parsed directly. -/
def parseCommitDate (l : List Char) : Option Timestamp :=
  if hasChar '+' l || decide (2 < countChar '-' l) then
    match splitChar ' ' l with
    | p0 :: p1 :: _ :: _ => parseDateTime (p0 ++ ' ' :: p1)
    | _ => parseDateTime l
  else parseDateTime l

/- ## Diff summary parsing (lines 162 to 212 of the source) -/

/-- The word insertion scanned for in the stat summary. -/
def insertionWord : List Char := ['i', 'n', 's', 'e', 'r', 't', 'i', 'o', 'n']

/-- The word deletion scanned for in the stat summary. -/
def deletionWord : List Char := ['d', 'e', 'l', 'e', 't', 'i', 'o', 'n']

/-- Assignment lines_added = int(joined digits of the fragment): the digits
of the fragment are concatenated and read as one number; when the fragment
has no digit the int call raises and the previous value is kept. -/
def digitsValue (cur : Nat) (fragment : List Char) : Nat :=
  let ds := digitsOf fragment
  if ds.isEmpty then cur else natOfDigits ds

/-- Per line update of the (lines added, lines deleted) accumulator,
mirroring the if and elif chain of the source: a line with both words is
split on commas and each comma part updates one counter, a line with only
one of the words feeds the whole line through the digit join. -/
def statLineStep (acc : Nat × Nat) (line : List Char) : Nat × Nat :=
  if containsSeq insertionWord line && containsSeq deletionWord line then
    (splitChar ',' line).foldl
      (fun ab part =>
        if containsSeq insertionWord part then (digitsValue ab.1 part, ab.2)
        else if containsSeq deletionWord part then (ab.1, digitsValue ab.2 part)
        else ab)
      acc
  else if containsSeq insertionWord line then (digitsValue acc.1 line, acc.2)
  else if containsSeq deletionWord line then (acc.1, digitsValue acc.2 line)
  else acc

/-- Model of the commit line change extraction: both counters start at
zero; an empty stat output yields (0, 0); otherwise each line of the output
is fed through the per line update. -/
def getCommitLines (diff : List Char) : Nat × Nat :=
  if diff.isEmpty then (0, 0)
  else (splitChar '\n' diff).foldl statLineStep (0, 0)

/- ## History extraction (lines 70 to 160 of the source) -/

/-- Outcome of one external VCS invocation: captured standard output on
success, or a raised error (non zero exit or missing tool). -/
inductive GitResult where
  | success (stdout : String)
  | failure
deriving Repr

/-- One commit as listed by the log query, the CommitStats namedtuple of
the source. -/
structure CommitStats where
  author : String
  date : Timestamp
  commit_hash : String
  lines_added : Nat
  lines_deleted : Nat
deriving DecidableEq, Repr

/-- Environment of one repository: the outcome of the log invocation and,
per commit hash, the outcome of the per commit stat invocation. -/
structure RepoEnv where
  logResult : GitResult
  showResult : String → GitResult

/-- Model of the run git command wrapper: the stripped standard output on
success, and the empty string when the invocation raised. -/
def runGitCommand : GitResult → List Char
  | .success out => stripChars out.toList
  | .failure => []

/-- Parsing of one log line hash|author|date: blank lines and lines with
fewer than three parts are skipped, an unparseable date skips the line, and
otherwise the per commit stat query is issued and parsed. -/
def parseLogLine (env : RepoEnv) (line : List Char) : Option CommitStats :=
  if (stripChars line).isEmpty then none
  else
    match splitChar '|' line with
    | p0 :: p1 :: p2 :: _ =>
      match parseCommitDate p2 with
      | none => none
      | some ts =>
        let ld := getCommitLines (runGitCommand (env.showResult (String.mk p0)))
        some ⟨String.mk p1, ts, String.mk p0, ld.1, ld.2⟩
    | _ => none

/-- Model of the commit statistics extraction for one repository: an empty
log output (also produced by a failed invocation) yields no records,
otherwise each log line is parsed independently. -/
def getCommitStats (env : RepoEnv) : List CommitStats :=
  let commitLog := runGitCommand env.logResult
  if commitLog.isEmpty then []
  else (splitChar '\n' commitLog).filterMap (parseLogLine env)

/-- Model of the analysis loop: the statistics of all repositories are
concatenated in order. -/
def analyzeStats (envs : List RepoEnv) : List CommitStats :=
  (envs.map getCommitStats).flatten

/- ## Ingest and deduplication (lines 229 to 252 of the source) -/

/-- Recursion of drop duplicates on the hash column: a record whose hash
was already seen is dropped, otherwise it is kept and its hash recorded, so
the first seen record wins. -/
def dedupAux (seen : List String) : List CommitStats → List CommitStats
  | [] => []
  | c :: cs =>
    if c.commit_hash ∈ seen then dedupAux seen cs
    else c :: dedupAux (c.commit_hash :: seen) cs

/-- Model of drop duplicates keyed on the hash column, keeping the first
occurrence of each hash in order. -/
def dedupByHash (l : List CommitStats) : List CommitStats := dedupAux [] l

/-- One row of the commits DataFrame, with the derived week start and net
lines columns added at ingest. -/
structure CommitRow where
  commit_hash : String
  author : String
  date : Timestamp
  lines_added : Nat
  lines_deleted : Nat
  week_start : Date
  net_lines : Int
deriving DecidableEq, Repr

/-- Model of the create dataframe step: deduplicate by hash, then add the
derived week start (Monday of the week) and net lines columns. -/
def createDataframe (stats : List CommitStats) : List CommitRow :=
  (dedupByHash stats).map fun c =>
    { commit_hash := c.commit_hash, author := c.author, date := c.date,
      lines_added := c.lines_added, lines_deleted := c.lines_deleted,
      week_start := weekBucket c.date,
      net_lines := (c.lines_added : Int) - (c.lines_deleted : Int) }

/-- State of the analyzer frame: the per commit rows plus the period start
column once a grouping call has written it. -/
structure DfState where
  rows : List CommitRow
  periodStart : Option (List Date)
deriving DecidableEq, Repr

/-- Model of analyze repositories: the frame stays absent when no commit
was collected, matching the guard on line 226 of the source. -/
def analyzerState (envs : List RepoEnv) : Option DfState :=
  let stats := analyzeStats envs
  if stats.isEmpty then none else some ⟨createDataframe stats, none⟩

/- ## Grouping and aggregation (lines 263 to 300 of the source) -/

/-- Strict lexicographic order on dates. -/
def dateLtB (a b : Date) : Bool :=
  decide (a.year < b.year) ||
    (decide (a.year = b.year) &&
      (decide (a.month < b.month) ||
        (decide (a.month = b.month) && decide (a.day < b.day))))

/-- Strict code point lexicographic order on character lists, the Python
string comparison. -/
def listLtB : List Char → List Char → Bool
  | [], [] => false
  | [], _ :: _ => true
  | _ :: _, [] => false
  | a :: as, b :: bs => decide (a.toNat < b.toNat) || (a == b && listLtB as bs)

/-- Non strict order on strings derived from the code point order. -/
def strLeB (a b : String) : Bool := listLtB a.toList b.toList || a == b

/-- Non strict order on the (period start, contributor) grouping keys. -/
def pairLeB (a b : Date × String) : Bool :=
  dateLtB a.1 b.1 || (decide (a.1 = b.1) && strLeB a.2 b.2)

/-- Ordered insertion for the sorting of grouped output. -/
def insertLe {α : Type} (le : α → α → Bool) (x : α) : List α → List α
  | [] => [x]
  | y :: ys => if le x y then x :: y :: ys else y :: insertLe le x ys

/-- Insertion sort, the deterministic model of the sorted grouped output. -/
def sortLe {α : Type} (le : α → α → Bool) : List α → List α
  | [] => []
  | x :: xs => insertLe le x (sortLe le xs)

/-- One aggregated output row, with the columns renamed as on line 298 of
the source. -/
structure AggRow where
  period_start : Date
  contributor : String
  commits : Nat
  lines_added : Nat
  lines_deleted : Nat
deriving DecidableEq, Repr

/-- Grouping key of one (row, period start) pair. -/
def aggKey (p : CommitRow × Date) : Date × String := (p.2, p.1.author)

/-- Model of groupby on (period start, author) with count and sum
aggregation followed by the sort on (period start, contributor): one output
row per distinct key, keys in ascending order. -/
def aggregateRows (pairs : List (CommitRow × Date)) : List AggRow :=
  let keys := sortLe pairLeB (pairs.map aggKey).dedup
  keys.map fun k =>
    let grp := pairs.filter (fun p => decide (aggKey p = k))
    { period_start := k.1, contributor := k.2, commits := grp.length,
      lines_added := (grp.map (fun p => p.1.lines_added)).sum,
      lines_deleted := (grp.map (fun p => p.1.lines_deleted)).sum }

/-- Errors raised by the analyzer: the ValueError for an invalid grouping
period and the pandas KeyError for a missing column. -/
inductive AnalyzerError where
  | invalidGroupBy (g : String)
  | keyError (col : String)
deriving DecidableEq, Repr

/-- The if and elif chain on the grouping period (lines 277 to 288): the
period start column computed from the date column, or none for a period
outside day, week and month. -/
def periodColumn (rows : List CommitRow) (g : String) : Option (List Date) :=
  if g = "day" then some (rows.map (fun r => dayBucket r.date))
  else if g = "week" then some (rows.map (fun r => weekBucket r.date))
  else if g = "month" then some (rows.map (fun r => monthBucket r.date))
  else none

/-- Model of get grouped dataframe: an absent frame returns an empty result
untouched; an invalid period raises; otherwise the period start column is
written into the stored frame and the aggregated rows are returned. -/
def getGroupedDataframe (st : Option DfState) (g : String) :
    Except AnalyzerError (Option DfState × List AggRow) :=
  match st with
  | none => .ok (none, [])
  | some s =>
    match periodColumn s.rows g with
    | none => .error (.invalidGroupBy g)
    | some col =>
      .ok (some { rows := s.rows, periodStart := some col },
        aggregateRows (s.rows.zip col))

/-- Model of get weekly dataframe, grouping by week. -/
def getWeeklyDataframe (st : Option DfState) :
    Except AnalyzerError (Option DfState × List AggRow) :=
  getGroupedDataframe st "week"

/-- Aggregated rows returned by a grouping call, the empty list standing
for the error case. -/
def groupedRowsOf (s : DfState) (g : String) : List AggRow :=
  match getGroupedDataframe (some s) g with
  | .ok (_, rows) => rows
  | .error _ => []

/-- One row of the contributor summary. -/
structure ContribRow where
  author : String
  commits : Nat
  lines_added : Nat
  lines_deleted : Nat
deriving DecidableEq, Repr

/-- Descending order on commit counts used by the contributor summary. -/
def contribLeB (a b : ContribRow) : Bool := decide (b.commits ≤ a.commits)

/-- Model of the contributor summary (lines 407 to 421): groupby on author
with count and sum aggregation, sorted descending by commit count. -/
def getContributorSummary (rows : List CommitRow) : List ContribRow :=
  let keys := sortLe strLeB (rows.map (fun r => r.author)).dedup
  let summ := keys.map fun a =>
    let grp := rows.filter (fun r => decide (r.author = a))
    ContribRow.mk a grp.length
      ((grp.map (fun r => r.lines_added)).sum)
      ((grp.map (fun r => r.lines_deleted)).sum)
  sortLe contribLeB summ

/-- Total lines added over the frame, as on line 355 of the source. -/
def totalLinesAdded (rows : List CommitRow) : Nat :=
  (rows.map (fun r => r.lines_added)).sum

/-- Total lines deleted over the frame, as on line 356 of the source. -/
def totalLinesDeleted (rows : List CommitRow) : Nat :=
  (rows.map (fun r => r.lines_deleted)).sum

/- ## Report and export facade (lines 302 to 421 of the source) -/

/-- Column labels of the grouped frame after the rename on line 298. -/
def groupedColumns : List String :=
  ["period_start", "contributor", "commits", "lines_added", "lines_deleted"]

/-- Column labels written by the CSV export on line 336. -/
def csvColumns : List String :=
  ["Week Start", "Contributor", "Commits", "Lines Added", "Lines Deleted"]

/-- Outcome of the JSON export: the no data message, or records written. -/
inductive JsonOut where
  | noData
  | written (records : List AggRow)
deriving DecidableEq, Repr

/-- Outcome of the CSV export: the no data message, or a table written. -/
inductive CsvOut where
  | noData
  | written (columns : List String) (records : List AggRow)
deriving DecidableEq, Repr

/-- Model of export to json (lines 302 to 321): fetch the weekly frame,
emit the no data message when it is empty, and otherwise access the week
start column of the weekly frame before serializing; since the grouped
columns were renamed to period start and friends, that access raises a
KeyError. -/
def exportToJson (st : Option DfState) : Except AnalyzerError JsonOut :=
  match getWeeklyDataframe st with
  | .error e => .error e
  | .ok (_, rows) =>
    if rows.isEmpty then .ok .noData
    else if "week_start" ∈ groupedColumns then .ok (.written rows)
    else .error (.keyError "week_start")

/-- Model of export to csv (lines 323 to 341): fetch the weekly frame, emit
the no data message when it is empty, and otherwise rename the five columns
to their human labels and write the table; the subsequent access to the
Week Start column succeeds. -/
def exportToCsv (st : Option DfState) : Except AnalyzerError CsvOut :=
  match getWeeklyDataframe st with
  | .error e => .error e
  | .ok (_, rows) =>
    if rows.isEmpty then .ok .noData
    else if "Week Start" ∈ csvColumns then .ok (.written csvColumns rows)
    else .error (.keyError "Week Start")

/-- Outcome of print summary: the no statistics message, or the report with
totals and the contributor table. -/
inductive SummaryOut where
  | noStats
  | report (totalCommits : Nat) (added deleted : Nat) (net : Int)
      (contributors : List ContribRow)
deriving DecidableEq, Repr

/-- Model of print summary (lines 343 to 396): the no statistics message
when no frame exists, otherwise the totals over the raw frame and the
contributor aggregation. -/
def printSummary (st : Option DfState) : SummaryOut :=
  match st with
  | none => .noStats
  | some s =>
    .report s.rows.length (totalLinesAdded s.rows) (totalLinesDeleted s.rows)
      ((totalLinesAdded s.rows : Int) - (totalLinesDeleted s.rows : Int))
      (getContributorSummary s.rows)

/-- Model of get grouped dataframe restricted to the period start bucket of
one timestamp, the per commit form of the if and elif chain. -/
def periodStartOf (g : String) (ts : Timestamp) : Option Date :=
  if g = "day" then some (dayBucket ts)
  else if g = "week" then some (weekBucket ts)
  else if g = "month" then some (monthBucket ts)
  else none

/-- Frame state observed after a grouping call: the written state on
success, the untouched state when the call raised. -/
def groupedStateOf (s : DfState) (g : String) : Option DfState :=
  match getGroupedDataframe (some s) g with
  | .ok (st, _) => st
  | .error _ => some s

/- ## Concrete example values used by witnesses and counterexamples -/

/-- Example frame row: one commit by alice on Monday 2024-06-03. -/
def exRow : CommitRow :=
  { commit_hash := "a", author := "alice", date := ⟨⟨2024, 6, 3⟩, 10, 0, 0⟩,
    lines_added := 1, lines_deleted := 0, week_start := ⟨2024, 6, 3⟩,
    net_lines := 1 }

/-- Example frame row: one commit by bob on Wednesday 2024-06-05. -/
def exRow2 : CommitRow :=
  { commit_hash := "b", author := "bob", date := ⟨⟨2024, 6, 5⟩, 11, 0, 0⟩,
    lines_added := 5, lines_deleted := 2, week_start := ⟨2024, 6, 3⟩,
    net_lines := 3 }

/-- Example single commit frame state. -/
def exState : DfState := ⟨[exRow], none⟩

/-- Example two contributor frame state. -/
def exState2 : DfState := ⟨[exRow, exRow2], none⟩

/-- Example commit record with hash h1, by alice. -/
def csA : CommitStats := ⟨"alice", ⟨⟨2024, 6, 3⟩, 10, 0, 0⟩, "h1", 10, 2⟩

/-- Example commit record sharing hash h1, by bob with different fields. -/
def csB : CommitStats := ⟨"bob", ⟨⟨2024, 6, 3⟩, 11, 0, 0⟩, "h1", 5, 0⟩

/-- Example repository environment whose log invocation fails. -/
def envFail : RepoEnv := ⟨.failure, fun _ => .failure⟩

/-- Example healthy repository environment with two commits. -/
def envOk : RepoEnv :=
  ⟨.success "h1|alice|2024-06-03 10:00:00 -0700\nh2|bob|2024-06-05 11:00:00 -0700",
    fun h =>
      if h == "h1" then .success " 2 files changed, 10 insertions(+), 5 deletions(-)"
      else .success " 1 file changed, 3 insertions(+)"⟩

/- ## Claim theorems -/

/-- C1: evaluation of the per commit line change parser at the three stat
summary lines named by the claim. The claim expects (10, 5), (3, 0) and
(0, 0); the code indeed yields (10, 5) and (0, 0) for the first and third
lines, but on the insertions only line it concatenates every digit of the
whole line, file count included, and returns (13, 0) instead of (3, 0). -/
theorem c1_diff_summary_eval :
    getCommitLines (" 2 files changed, 10 insertions(+), 5 deletions(-)".toList) = (10, 5) ∧
    getCommitLines (" 1 file changed, 3 insertions(+)".toList) = (13, 0) ∧
    getCommitLines (" 1 file changed".toList) = (0, 0) := by
  refine ⟨by decide, by decide, by decide⟩

/-- C2: evaluation of the JSON export on a non empty ingested collection.
The claim expects a JSON array keyed by period start and friends; instead
the code accesses the week start column of the weekly frame, whose columns
were renamed to period start and friends on line 298, so the export raises
a KeyError before writing anything. -/
theorem c2_export_json_eval :
    exportToJson (some exState) = .error (.keyError "week_start") := by rfl

/-- Auxiliary induction for C3: under any already seen hash set, appending
a second record with an already appended hash leaves the deduplication
unchanged. -/
theorem dedupAux_dup (r r2 : CommitStats) (h : r.commit_hash = r2.commit_hash) :
    ∀ (xs : List CommitStats) (seen : List String),
      dedupAux seen (xs ++ [r, r2]) = dedupAux seen (xs ++ [r]) := by
  intro xs
  induction xs with
  | nil =>
    intro seen
    by_cases hr : r.commit_hash ∈ seen
    · have hr2 : r2.commit_hash ∈ seen := h ▸ hr
      simp [dedupAux, hr, hr2]
    · have hr2 : r2.commit_hash ∈ r.commit_hash :: seen := by simp [h]
      simp [dedupAux, hr, hr2]
  | cons x xs ih =>
    intro seen
    simp only [List.cons_append, dedupAux]
    by_cases hx : x.commit_hash ∈ seen
    · simp [hx, ih]
    · simp [hx, ih]

/-- C3: ingest is idempotent under duplicate hashes. For every commit
collection, appending a record whose hash equals that of the record
appended just before it (in particular appending the same record twice)
yields the same deduplicated collection and the same ingested frame, the
first seen record being the one kept. -/
theorem c3_ingest_idempotent (xs : List CommitStats) (r r2 : CommitStats)
    (h : r.commit_hash = r2.commit_hash) :
    dedupByHash (xs ++ [r, r2]) = dedupByHash (xs ++ [r]) ∧
    createDataframe (xs ++ [r, r2]) = createDataframe (xs ++ [r]) := by
  have hd : dedupByHash (xs ++ [r, r2]) = dedupByHash (xs ++ [r]) :=
    dedupAux_dup r r2 h xs []
  exact ⟨hd, by unfold createDataframe; rw [hd]⟩

/-- C3 witness: two records with the same hash collapse to the first one. -/
theorem c3_witness :
    dedupByHash ([] ++ [csA, csB]) = dedupByHash ([] ++ [csA]) ∧
    createDataframe ([] ++ [csA, csB]) = createDataframe ([] ++ [csA]) :=
  c3_ingest_idempotent [] csA csB rfl

/-- C4: period bucketing. For every timestamp the week grouping buckets to
the calendar date minus its zero based weekday offset, so Wednesday
2024-01-17 buckets to Monday 2024-01-15 and Monday 2024-01-15 buckets to
itself; and the month grouping buckets to the first day of the calendar
month, so 2024-03-01 and 2024-03-31 both bucket to 2024-03-01. -/
theorem c4_period_bucketing :
    (∀ ts : Timestamp,
      periodStartOf "week" ts = some (subDays ts.date (pyWeekday ts.date))) ∧
    periodStartOf "week" ⟨⟨2024, 1, 17⟩, 12, 0, 0⟩ = some ⟨2024, 1, 15⟩ ∧
    periodStartOf "week" ⟨⟨2024, 1, 15⟩, 0, 0, 0⟩ = some ⟨2024, 1, 15⟩ ∧
    (∀ ts : Timestamp,
      periodStartOf "month" ts = some ⟨ts.date.year, ts.date.month, 1⟩) ∧
    periodStartOf "month" ⟨⟨2024, 3, 1⟩, 0, 0, 0⟩ = some ⟨2024, 3, 1⟩ ∧
    periodStartOf "month" ⟨⟨2024, 3, 31⟩, 23, 59, 59⟩ = some ⟨2024, 3, 1⟩ := by
  refine ⟨fun ts => rfl, by decide, by decide, fun ts => rfl, by decide, by decide⟩

/-- C6: requesting a grouping period outside day, week and month on a non
empty ingested frame raises the invalid argument error instead of
returning an empty or default result. -/
theorem c6_invalid_period (s : DfState) (g : String) (_hne : s.rows ≠ [])
    (h1 : g ≠ "day") (h2 : g ≠ "week") (h3 : g ≠ "month") :
    getGroupedDataframe (some s) g = .error (.invalidGroupBy g) := by
  simp [getGroupedDataframe, periodColumn, h1, h2, h3]

/-- C6 witness: the period quarter fails on a concrete non empty frame. -/
theorem c6_witness :
    getGroupedDataframe (some exState) "quarter" =
      .error (.invalidGroupBy "quarter") :=
  c6_invalid_period exState "quarter" (by decide) (by decide) (by decide) (by decide)

/-- C8: extraction fault isolation. A repository whose log invocation fails
contributes an empty commit list, and the concatenated statistics and the
resulting analyzer frame over any repository list containing it equal those
over the list with it removed. -/
theorem c8_fault_isolation (e : RepoEnv) (he : e.logResult = .failure)
    (l1 l2 : List RepoEnv) :
    getCommitStats e = [] ∧
    analyzeStats (l1 ++ e :: l2) = analyzeStats (l1 ++ l2) ∧
    analyzerState (l1 ++ e :: l2) = analyzerState (l1 ++ l2) := by
  have h0 : getCommitStats e = [] := by simp [getCommitStats, he, runGitCommand]
  have h1 : analyzeStats (l1 ++ e :: l2) = analyzeStats (l1 ++ l2) := by
    simp [analyzeStats, h0]
  exact ⟨h0, h1, by simp [analyzerState, h1]⟩

/-- C8 witness: a failing repository next to a healthy one leaves the
analysis equal to that of the healthy repository alone. -/
theorem c8_witness :
    getCommitStats envFail = [] ∧
    analyzeStats ([envOk] ++ envFail :: []) = analyzeStats ([envOk] ++ []) ∧
    analyzerState ([envOk] ++ envFail :: []) = analyzerState ([envOk] ++ []) :=
  c8_fault_isolation envFail rfl [envOk] []

/-- C9: before any ingest the frame is absent and every facade operation
returns its explicit empty result signal without raising: grouped and
weekly retrieval return an empty table, both exports report no data, and
the summary reports no statistics. -/
theorem c9_export_before_ingest :
    getGroupedDataframe none "week" = .ok (none, []) ∧
    getGroupedDataframe none "day" = .ok (none, []) ∧
    getGroupedDataframe none "month" = .ok (none, []) ∧
    getWeeklyDataframe none = .ok (none, []) ∧
    exportToJson none = .ok .noData ∧
    exportToCsv none = .ok .noData ∧
    printSummary none = .noStats :=
  ⟨rfl, rfl, rfl, rfl, rfl, rfl, rfl⟩

/-- C10 counterexample: the claim that a grouping call leaves the stored
per commit frame unchanged is false: on a concrete ingested frame the week
grouping writes the period start column into the stored frame, so the
state after the call differs from the state before it. -/
theorem c10_counterexample : groupedStateOf exState "week" ≠ some exState := by
  decide

/-- C10 amended: a grouping call on a valid period recomputes the period
bucket column from the stored records and writes it into the stored frame
as the period start column, overwriting any previous value; the per commit
records themselves are unchanged, and the returned grouped rows are a
projection recomputed from the records and that column. -/
theorem c10_frame_amended (s : DfState) (g : String)
    (_hg : g = "day" ∨ g = "week" ∨ g = "month") (col : List Date)
    (hcol : periodColumn s.rows g = some col) :
    getGroupedDataframe (some s) g =
      .ok (some { rows := s.rows, periodStart := some col },
        aggregateRows (s.rows.zip col)) ∧
    groupedStateOf s g = some { rows := s.rows, periodStart := some col } := by
  have h1 : getGroupedDataframe (some s) g =
      .ok (some { rows := s.rows, periodStart := some col },
        aggregateRows (s.rows.zip col)) := by
    simp [getGroupedDataframe, hcol]
  exact ⟨h1, by simp [groupedStateOf, h1]⟩

/-- C10 witness: the amended statement at a concrete frame and the week
period. -/
theorem c10_witness :
    getGroupedDataframe (some exState) "week" =
      .ok (some { rows := exState.rows, periodStart := some [⟨2024, 6, 3⟩] },
        aggregateRows (exState.rows.zip [⟨2024, 6, 3⟩])) ∧
    groupedStateOf exState "week" =
      some { rows := exState.rows, periodStart := some [⟨2024, 6, 3⟩] } :=
  c10_frame_amended exState "week" (Or.inr (Or.inl rfl)) [⟨2024, 6, 3⟩] (by decide)

/- ## Partition sum lemmas for C7 -/

/-- Map respects pointwise equality on the members of the list. -/
theorem map_ext_mem {α β : Type} (l : List α) (f g : α → β)
    (h : ∀ a ∈ l, f a = g a) : l.map f = l.map g := by
  induction l with
  | nil => rfl
  | cons a t ih =>
    simp only [List.map_cons]
    rw [h a (by simp), ih (fun b hb => h b (by simp [hb]))]

/-- Length of a list as the sum of ones. -/
theorem length_eq_sum_ones {α : Type} (l : List α) :
    l.length = (l.map (fun _ => (1 : Nat))).sum := by
  induction l with
  | nil => rfl
  | cons a t ih =>
    simp only [List.length_cons, List.map_cons, List.sum_cons, ih]
    omega

/-- A weighted sum splits across a filter and its complement. -/
theorem sum_filter_split {α : Type} (p : α → Bool) (w : α → Nat) (l : List α) :
    ((l.filter p).map w).sum + ((l.filter (fun a => !(p a))).map w).sum
      = (l.map w).sum := by
  induction l with
  | nil => rfl
  | cons a t ih =>
    cases h : p a with
    | false =>
      have e1 : (a :: t).filter p = t.filter p :=
        List.filter_cons_of_neg (by simp [h])
      have e2 : (a :: t).filter (fun x => !(p x)) = a :: t.filter (fun x => !(p x)) :=
        List.filter_cons_of_pos (by simp [h])
      rw [e1, e2]
      simp only [List.map_cons, List.sum_cons]
      omega
    | true =>
      have e1 : (a :: t).filter p = a :: t.filter p :=
        List.filter_cons_of_pos (by simp [h])
      have e2 : (a :: t).filter (fun x => !(p x)) = t.filter (fun x => !(p x)) :=
        List.filter_cons_of_neg (by simp [h])
      rw [e1, e2]
      simp only [List.map_cons, List.sum_cons]
      omega

/-- Filtering for one key commutes with removing another key. -/
theorem filter_sub_filter {α K : Type} [DecidableEq K] (k : α → K) (key k2 : K)
    (hne : k2 ≠ key) (l : List α) :
    l.filter (fun a => decide (k a = k2))
      = (l.filter (fun a => !(decide (k a = key)))).filter
          (fun a => decide (k a = k2)) := by
  induction l with
  | nil => rfl
  | cons a t ih =>
    by_cases ha : k a = k2
    · have hb : ¬(k a = key) := fun h0 => hne (ha.symm.trans h0)
      have e1 : (a :: t).filter (fun x => decide (k x = k2))
          = a :: t.filter (fun x => decide (k x = k2)) :=
        List.filter_cons_of_pos (by simp [ha])
      have e2 : (a :: t).filter (fun x => !(decide (k x = key)))
          = a :: t.filter (fun x => !(decide (k x = key))) :=
        List.filter_cons_of_pos (by simp [hb])
      have e3 : (a :: t.filter (fun x => !(decide (k x = key)))).filter
            (fun x => decide (k x = k2))
          = a :: (t.filter (fun x => !(decide (k x = key)))).filter
              (fun x => decide (k x = k2)) :=
        List.filter_cons_of_pos (by simp [ha])
      rw [e1, e2, e3, ih]
    · by_cases hb : k a = key
      · have e1 : (a :: t).filter (fun x => decide (k x = k2))
            = t.filter (fun x => decide (k x = k2)) :=
          List.filter_cons_of_neg (by simp [ha])
        have e2 : (a :: t).filter (fun x => !(decide (k x = key)))
            = t.filter (fun x => !(decide (k x = key))) :=
          List.filter_cons_of_neg (by simp [hb])
        rw [e1, e2, ih]
      · have e1 : (a :: t).filter (fun x => decide (k x = k2))
            = t.filter (fun x => decide (k x = k2)) :=
          List.filter_cons_of_neg (by simp [ha])
        have e2 : (a :: t).filter (fun x => !(decide (k x = key)))
            = a :: t.filter (fun x => !(decide (k x = key))) :=
          List.filter_cons_of_pos (by simp [hb])
        have e3 : (a :: t.filter (fun x => !(decide (k x = key)))).filter
              (fun x => decide (k x = k2))
            = (t.filter (fun x => !(decide (k x = key)))).filter
                (fun x => decide (k x = k2)) :=
          List.filter_cons_of_neg (by simp [ha])
        rw [e1, e2, e3, ih]

/-- Summing the per key weighted group sums over a duplicate free covering
key list gives the weighted sum over the whole list. -/
theorem sum_over_keys {α K : Type} [DecidableEq K] (k : α → K) (w : α → Nat) :
    ∀ (keys : List K), keys.Nodup → ∀ (l : List α), (∀ a ∈ l, k a ∈ keys) →
      (keys.map (fun key => ((l.filter (fun a => decide (k a = key))).map w).sum)).sum
        = (l.map w).sum := by
  intro keys
  induction keys with
  | nil =>
    intro _ l cov
    have hl : l = [] := by
      cases l with
      | nil => rfl
      | cons a t => exact absurd (cov a (by simp)) (by simp)
    subst hl
    rfl
  | cons key ks ih =>
    intro hnd l cov
    have hkey : key ∉ ks := (List.nodup_cons.mp hnd).1
    have hks : ks.Nodup := (List.nodup_cons.mp hnd).2
    have hcong : ∀ k2 ∈ ks,
        l.filter (fun a => decide (k a = k2))
          = (l.filter (fun a => !(decide (k a = key)))).filter
              (fun a => decide (k a = k2)) := by
      intro k2 hk2
      exact filter_sub_filter k key k2 (fun h0 => hkey (h0 ▸ hk2)) l
    have htail :
        (ks.map (fun k2 => ((l.filter (fun a => decide (k a = k2))).map w).sum)).sum
          = (ks.map (fun k2 =>
              (((l.filter (fun a => !(decide (k a = key)))).filter
                (fun a => decide (k a = k2))).map w).sum)).sum := by
      apply congrArg List.sum
      exact map_ext_mem ks _ _ (fun k2 hk2 => by rw [hcong k2 hk2])
    have hcov2 : ∀ a ∈ l.filter (fun a => !(decide (k a = key))), k a ∈ ks := by
      intro a ha
      have hmem : a ∈ l := List.mem_of_mem_filter ha
      have hcond : ¬(k a = key) := by
        have := (List.mem_filter.mp ha).2
        simpa using this
      rcases List.mem_cons.mp (cov a hmem) with h0 | h0
      · exact absurd h0 hcond
      · exact h0
    simp only [List.map_cons, List.sum_cons]
    rw [htail, ih hks _ hcov2]
    exact sum_filter_split (fun a => decide (k a = key)) w l

/-- Ordered insertion permutes to consing. -/
theorem insertLe_perm {α : Type} (le : α → α → Bool) (x : α) (l : List α) :
    List.Perm (insertLe le x l) (x :: l) := by
  induction l with
  | nil => exact List.Perm.refl _
  | cons y ys ih =>
    cases h : le x y
    · simp only [insertLe, h, Bool.false_eq_true, if_false]
      exact List.Perm.trans (List.Perm.cons y ih) (List.Perm.swap x y ys)
    · simp [insertLe, h]

/-- Insertion sort permutes its input. -/
theorem sortLe_perm {α : Type} (le : α → α → Bool) (l : List α) :
    List.Perm (sortLe le l) l := by
  induction l with
  | nil => exact List.Perm.refl _
  | cons x xs ih =>
    exact List.Perm.trans (insertLe_perm le x (sortLe le xs)) (List.Perm.cons x ih)

/-- Custom zip projection: pairing a list with a mapped copy of itself and
projecting through the first component recovers the original mapping. -/
theorem zip_map_fst {α β γ : Type} (l : List α) (f : α → β) (g : α → γ) :
    (l.zip (l.map f)).map (fun p => g p.1) = l.map g := by
  induction l with
  | nil => rfl
  | cons a t ih => simp [ih]

/-- The lines added entries of the aggregated rows sum to the lines added
total over the (row, period) pairs. -/
theorem agg_lines_sum (pairs : List (CommitRow × Date)) :
    ((aggregateRows pairs).map (fun a => a.lines_added)).sum
      = (pairs.map (fun p => p.1.lines_added)).sum := by
  unfold aggregateRows
  rw [List.map_map]
  have hperm :
      List.Perm
        ((sortLe pairLeB (pairs.map aggKey).dedup).map
          ((fun a => a.lines_added) ∘ fun k =>
            ({ period_start := k.1, contributor := k.2,
               commits := (pairs.filter (fun p => decide (aggKey p = k))).length,
               lines_added :=
                 ((pairs.filter (fun p => decide (aggKey p = k))).map
                   (fun p => p.1.lines_added)).sum,
               lines_deleted :=
                 ((pairs.filter (fun p => decide (aggKey p = k))).map
                   (fun p => p.1.lines_deleted)).sum } : AggRow)))
        (((pairs.map aggKey).dedup).map
          (fun k =>
            ((pairs.filter (fun p => decide (aggKey p = k))).map
              (fun p => p.1.lines_added)).sum)) :=
    List.Perm.map _ (sortLe_perm pairLeB (pairs.map aggKey).dedup)
  rw [List.Perm.sum_eq hperm]
  exact sum_over_keys aggKey (fun p => p.1.lines_added)
    (pairs.map aggKey).dedup (List.nodup_dedup _)
    pairs (fun a ha => List.mem_dedup.mpr (List.mem_map_of_mem aggKey ha))

/-- The commit counts of the contributor summary sum to the number of
frame rows. -/
theorem contrib_count_sum (rows : List CommitRow) :
    ((getContributorSummary rows).map (fun c => c.commits)).sum = rows.length := by
  unfold getContributorSummary
  have hperm1 :
      List.Perm
        ((sortLe contribLeB
          ((sortLe strLeB (rows.map (fun r => r.author)).dedup).map
            (fun a =>
              ContribRow.mk a (rows.filter (fun r => decide (r.author = a))).length
                (((rows.filter (fun r => decide (r.author = a))).map
                  (fun r => r.lines_added)).sum)
                (((rows.filter (fun r => decide (r.author = a))).map
                  (fun r => r.lines_deleted)).sum)))).map (fun c => c.commits))
        (((sortLe strLeB (rows.map (fun r => r.author)).dedup).map
          (fun a =>
            ContribRow.mk a (rows.filter (fun r => decide (r.author = a))).length
              (((rows.filter (fun r => decide (r.author = a))).map
                (fun r => r.lines_added)).sum)
              (((rows.filter (fun r => decide (r.author = a))).map
                (fun r => r.lines_deleted)).sum))).map (fun c => c.commits)) :=
    List.Perm.map _ (sortLe_perm contribLeB _)
  rw [List.Perm.sum_eq hperm1, List.map_map]
  have hnd : (sortLe strLeB (rows.map (fun r => r.author)).dedup).Nodup :=
    (List.Perm.nodup_iff (sortLe_perm strLeB _)).mpr (List.nodup_dedup _)
  have hcov : ∀ r ∈ rows,
      r.author ∈ sortLe strLeB (rows.map (fun r => r.author)).dedup := by
    intro r hr
    exact (List.Perm.mem_iff (sortLe_perm strLeB _)).mpr
      (List.mem_dedup.mpr (List.mem_map_of_mem _ hr))
  have hones :
      (sortLe strLeB (rows.map (fun r => r.author)).dedup).map
          ((fun c => c.commits) ∘ fun a =>
            ContribRow.mk a (rows.filter (fun r => decide (r.author = a))).length
              (((rows.filter (fun r => decide (r.author = a))).map
                (fun r => r.lines_added)).sum)
              (((rows.filter (fun r => decide (r.author = a))).map
                (fun r => r.lines_deleted)).sum))
        = (sortLe strLeB (rows.map (fun r => r.author)).dedup).map
            (fun a =>
              ((rows.filter (fun r => decide (r.author = a))).map
                (fun _ => (1 : Nat))).sum) := by
    apply map_ext_mem
    intro a _
    exact length_eq_sum_ones _
  rw [hones,
    sum_over_keys (fun r : CommitRow => r.author) (fun _ => (1 : Nat)) _ hnd rows hcov]
  exact (length_eq_sum_ones rows).symm

/-- C7: partition sums. For every non empty ingested frame and every valid
grouping period, the contributor summary commit counts sum to the total
commit count, and the lines added entries of the grouped rows sum to the
total lines added over all commits. -/
theorem c7_partition_sums (s : DfState) (g : String) (_hne : s.rows ≠ [])
    (hg : g = "day" ∨ g = "week" ∨ g = "month") :
    ((getContributorSummary s.rows).map (fun c => c.commits)).sum = s.rows.length ∧
    ((groupedRowsOf s g).map (fun a => a.lines_added)).sum = totalLinesAdded s.rows := by
  refine ⟨contrib_count_sum s.rows, ?_⟩
  have hcol : ∃ f : CommitRow → Date, periodColumn s.rows g = some (s.rows.map f) := by
    rcases hg with h | h | h <;> subst h
    · exact ⟨fun r => dayBucket r.date, rfl⟩
    · exact ⟨fun r => weekBucket r.date, rfl⟩
    · exact ⟨fun r => monthBucket r.date, rfl⟩
  obtain ⟨f, hf⟩ := hcol
  have hrows : groupedRowsOf s g = aggregateRows (s.rows.zip (s.rows.map f)) := by
    simp [groupedRowsOf, getGroupedDataframe, hf]
  rw [hrows, agg_lines_sum, zip_map_fst]
  rfl

/-- C7 witness: the partition sums at a concrete two contributor frame and
the week period. -/
theorem c7_witness :
    ((getContributorSummary exState2.rows).map (fun c => c.commits)).sum
        = exState2.rows.length ∧
    ((groupedRowsOf exState2 "week").map (fun a => a.lines_added)).sum
        = totalLinesAdded exState2.rows :=
  c7_partition_sums exState2 "week" (by decide) (Or.inr (Or.inl rfl))

/- ## Timestamp parsing lemmas for C5 -/

/-- Digit characters round trip through the digit value. -/
theorem dch_digit (n : Nat) (h : n < 10) :
    isDigitChar (dch n) = true ∧ digitVal (dch n) = n := by
  interval_cases n <;> exact ⟨rfl, rfl⟩

/-- Digit characters are not separators. -/
theorem dch_sep (n : Nat) (h : n < 10) :
    ((dch n == '-') = false) ∧ ((dch n == '+') = false) ∧ ((dch n == ' ') = false) := by
  interval_cases n <;> exact ⟨rfl, rfl, rfl⟩

/-- The year field parser consumes a four digit rendering. -/
theorem parse4_fmt4 (y : Nat) (hy : y ≤ 9999) (r : List Char) :
    parse4 (fmt4 y ++ r) = some (y, r) := by
  have h1 : y / 1000 < 10 := by omega
  have h2 : y / 100 % 10 < 10 := by omega
  have h3 : y / 10 % 10 < 10 := by omega
  have h4 : y % 10 < 10 := by omega
  obtain ⟨d1, v1⟩ := dch_digit _ h1
  obtain ⟨d2, v2⟩ := dch_digit _ h2
  obtain ⟨d3, v3⟩ := dch_digit _ h3
  obtain ⟨d4, v4⟩ := dch_digit _ h4
  show parse4 (dch (y / 1000) :: dch (y / 100 % 10) :: dch (y / 10 % 10) :: dch (y % 10) :: r)
      = some (y, r)
  simp only [parse4, d1, d2, d3, d4, v1, v2, v3, v4, Bool.and_self, Bool.and_true,
    Bool.true_and, if_true]
  have hval : 1000 * (y / 1000) + 100 * (y / 100 % 10) + 10 * (y / 10 % 10) + y % 10 = y := by
    omega
  rw [hval]

/-- The flexible two digit parser consumes a zero padded rendering whose
value passes the two digit test. -/
theorem parse2Flex_fmt2 (twoOk oneOk : Nat → Bool) (v : Nat) (hv : v < 100)
    (h2 : twoOk v = true) (r : List Char) :
    parse2Flex twoOk oneOk (fmt2 v ++ r) = some (v, r) := by
  have ha : v / 10 < 10 := by omega
  have hb : v % 10 < 10 := by omega
  obtain ⟨da, va⟩ := dch_digit _ ha
  obtain ⟨db, vb⟩ := dch_digit _ hb
  show parse2Flex twoOk oneOk (dch (v / 10) :: dch (v % 10) :: r) = some (v, r)
  have hval : 10 * (v / 10) + v % 10 = v := by omega
  simp only [parse2Flex, da, db, va, vb, Bool.true_and, hval, h2, if_true]

/-- A literal separator is consumed from the head. -/
theorem expectChar_cons (c : Char) (r : List Char) : expectChar c (c :: r) = some r := by
  simp [expectChar]

/-- The month field consumes its zero padded rendering. -/
theorem parseMonth_fmt2 (v : Nat) (h1 : 1 ≤ v) (h2 : v ≤ 12) (r : List Char) :
    parseMonth (fmt2 v ++ r) = some (v, r) := by
  unfold parseMonth
  exact parse2Flex_fmt2 _ _ v (by omega) (by simp [h1, h2]) r

/-- The day field consumes its zero padded rendering. -/
theorem parseDay_fmt2 (v : Nat) (h1 : 1 ≤ v) (h2 : v ≤ 31) (r : List Char) :
    parseDay (fmt2 v ++ r) = some (v, r) := by
  unfold parseDay
  exact parse2Flex_fmt2 _ _ v (by omega) (by simp [h1, h2]) r

/-- The hour field consumes its zero padded rendering. -/
theorem parseHour_fmt2 (v : Nat) (h2 : v ≤ 23) (r : List Char) :
    parseHour (fmt2 v ++ r) = some (v, r) := by
  unfold parseHour
  exact parse2Flex_fmt2 _ _ v (by omega) (by simp [h2]) r

/-- The minute field consumes its zero padded rendering. -/
theorem parseMinute_fmt2 (v : Nat) (h2 : v ≤ 59) (r : List Char) :
    parseMinute (fmt2 v ++ r) = some (v, r) := by
  unfold parseMinute
  exact parse2Flex_fmt2 _ _ v (by omega) (by simp [h2]) r

/-- The second field consumes its zero padded rendering. -/
theorem parseSecond_fmt2 (v : Nat) (h2 : v ≤ 61) (r : List Char) :
    parseSecond (fmt2 v ++ r) = some (v, r) := by
  unfold parseSecond
  exact parse2Flex_fmt2 _ _ v (by omega) (by simp; omega) r

/-- Month lengths never exceed thirty one days. -/
theorem daysInMonth_le_31 (y m : Nat) : daysInMonth y m ≤ 31 := by
  unfold daysInMonth
  split
  · split <;> omega
  · split <;> omega

/-- The strptime model accepts the bare zero padded rendering of any valid
timestamp and returns exactly its fields. -/
theorem parseDateTime_fmt (y mo d h mi s : Nat)
    (hy1 : 1 ≤ y) (hy2 : y ≤ 9999) (hmo1 : 1 ≤ mo) (hmo2 : mo ≤ 12)
    (hd1 : 1 ≤ d) (hd2 : d ≤ daysInMonth y mo) (hh : h ≤ 23) (hmi : mi ≤ 59)
    (hs : s ≤ 59) :
    parseDateTime (fmtDateTime y mo d h mi s) = some ⟨⟨y, mo, d⟩, h, mi, s⟩ := by
  have hd31 : d ≤ 31 := le_trans hd2 (daysInMonth_le_31 y mo)
  have hshape : fmtDateTime y mo d h mi s
      = fmt4 y ++ '-' :: (fmt2 mo ++ '-' :: (fmt2 d ++ ' ' :: (fmt2 h ++ ':' ::
          (fmt2 mi ++ ':' :: (fmt2 s ++ []))))) := by
    simp [fmtDateTime]
  rw [hshape]
  simp only [parseDateTime, parse4_fmt4 y hy2, expectChar_cons,
    parseMonth_fmt2 mo hmo1 hmo2,
    parseDay_fmt2 d hd1 hd31,
    parseHour_fmt2 h hh,
    parseMinute_fmt2 mi hmi,
    parseSecond_fmt2 s (by omega),
    Option.bind_eq_bind, Option.some_bind, List.isEmpty_nil, if_true]
  rw [if_pos ⟨hy1, hy2, hd2, hs⟩]

/-- Membership of a character unfolds over cons. -/
theorem hasChar_cons (c d : Char) (l : List Char) :
    hasChar c (d :: l) = ((d == c) || hasChar c l) := by
  simp [hasChar]

/-- Membership of a character distributes over append. -/
theorem hasChar_append (c : Char) (a b : List Char) :
    hasChar c (a ++ b) = (hasChar c a || hasChar c b) := by
  simp [hasChar]

/-- Counting a character unfolds over cons. -/
theorem countChar_cons (c d : Char) (l : List Char) :
    countChar c (d :: l) = (if d == c then 1 else 0) + countChar c l := rfl

/-- Counting a character adds over append. -/
theorem countChar_append (c : Char) (a b : List Char) :
    countChar c (a ++ b) = countChar c a + countChar c b := by
  induction a with
  | nil => simp [countChar]
  | cons d ds ih => simp [countChar, ih, Nat.add_assoc]

/-- A two digit block contains no plus, no space and no dash. -/
theorem fmt2_chars (v : Nat) (hv : v < 100) :
    hasChar '+' (fmt2 v) = false ∧ hasChar ' ' (fmt2 v) = false ∧
      countChar '-' (fmt2 v) = 0 := by
  have ha : v / 10 < 10 := by omega
  have hb : v % 10 < 10 := by omega
  obtain ⟨ma, pa, sa⟩ := dch_sep _ ha
  obtain ⟨mb, pb, sb⟩ := dch_sep _ hb
  refine ⟨?_, ?_, ?_⟩ <;> simp [fmt2, hasChar, countChar, ma, pa, sa, mb, pb, sb]

/-- A four digit block contains no plus, no space and no dash. -/
theorem fmt4_chars (y : Nat) (hy : y ≤ 9999) :
    hasChar '+' (fmt4 y) = false ∧ hasChar ' ' (fmt4 y) = false ∧
      countChar '-' (fmt4 y) = 0 := by
  have h1 : y / 1000 < 10 := by omega
  have h2 : y / 100 % 10 < 10 := by omega
  have h3 : y / 10 % 10 < 10 := by omega
  have h4 : y % 10 < 10 := by omega
  obtain ⟨m1, p1, s1⟩ := dch_sep _ h1
  obtain ⟨m2, p2, s2⟩ := dch_sep _ h2
  obtain ⟨m3, p3, s3⟩ := dch_sep _ h3
  obtain ⟨m4, p4, s4⟩ := dch_sep _ h4
  refine ⟨?_, ?_, ?_⟩ <;>
    simp [fmt4, hasChar, countChar, m1, p1, s1, m2, p2, s2, m3, p3, s3, m4, p4, s4]

/-- Splitting on spaces peels off a space free leading field. -/
theorem splitChar_push : ∀ (A : List Char), hasChar ' ' A = false → ∀ rest : List Char,
    splitChar ' ' (A ++ ' ' :: rest) = A :: splitChar ' ' rest := by
  intro A
  induction A with
  | nil =>
    intro _ rest
    simp [splitChar]
  | cons c cs ih =>
    intro hA rest
    simp only [hasChar, List.any_cons, Bool.or_eq_false_iff] at hA
    obtain ⟨h1, h2⟩ := hA
    have e0 : splitChar ' ' (c :: (cs ++ ' ' :: rest))
        = match splitChar ' ' (cs ++ ' ' :: rest) with
          | [] => [[c]]
          | p :: ps => (c :: p) :: ps := by
      simp [splitChar, h1]
    rw [List.cons_append, e0, ih h2 rest]

/-- Splitting a space free string gives one field. -/
theorem splitChar_single : ∀ (B : List Char), hasChar ' ' B = false →
    splitChar ' ' B = [B] := by
  intro B
  induction B with
  | nil => intro _; rfl
  | cons c cs ih =>
    intro hB
    simp only [hasChar, List.any_cons, Bool.or_eq_false_iff] at hB
    obtain ⟨h1, h2⟩ := hB
    have e0 : splitChar ' ' (c :: cs)
        = match splitChar ' ' cs with
          | [] => [[c]]
          | p :: ps => (c :: p) :: ps := by
      simp [splitChar, h1]
    rw [e0, ih h2]

/-- C5: timestamp normalization. For every valid timestamp, the commit
date parser accepts both its bare rendering YYYY-MM-DD HH:MM:SS and the
same followed by a UTC offset token such as -0700 or +0200, discarding the
offset rather than applying it, so all three inputs normalize to the same
timezone naive stored timestamp; in particular the two claim strings
2024-06-01 10:00:00 -0700 and 2024-06-01 10:00:00 parse identically. -/
theorem c5_timestamp_normalization (y mo d h mi s : Nat)
    (hy1 : 1 ≤ y) (hy2 : y ≤ 9999) (hmo1 : 1 ≤ mo) (hmo2 : mo ≤ 12)
    (hd1 : 1 ≤ d) (hd2 : d ≤ daysInMonth y mo) (hh : h ≤ 23) (hmi : mi ≤ 59)
    (hs : s ≤ 59) :
    parseCommitDate (fmtDateTime y mo d h mi s) = some ⟨⟨y, mo, d⟩, h, mi, s⟩ ∧
    parseCommitDate (fmtDateTime y mo d h mi s ++ ' ' :: offNeg0700)
      = some ⟨⟨y, mo, d⟩, h, mi, s⟩ ∧
    parseCommitDate (fmtDateTime y mo d h mi s ++ ' ' :: offPos0200)
      = some ⟨⟨y, mo, d⟩, h, mi, s⟩ ∧
    parseCommitDate ("2024-06-01 10:00:00 -0700".toList)
      = parseCommitDate ("2024-06-01 10:00:00".toList) := by
  have hd31 : d ≤ 31 := le_trans hd2 (daysInMonth_le_31 y mo)
  obtain ⟨p4, sp4, m4⟩ := fmt4_chars y hy2
  obtain ⟨pmo, smo, mmo⟩ := fmt2_chars mo (by omega)
  obtain ⟨pd, sd, md⟩ := fmt2_chars d (by omega)
  obtain ⟨ph, sh, mh⟩ := fmt2_chars h (by omega)
  obtain ⟨pmi, smi, mmi⟩ := fmt2_chars mi (by omega)
  obtain ⟨ps, ss, ms⟩ := fmt2_chars s (by omega)
  have hbare : parseDateTime (fmtDateTime y mo d h mi s) = some ⟨⟨y, mo, d⟩, h, mi, s⟩ :=
    parseDateTime_fmt y mo d h mi s hy1 hy2 hmo1 hmo2 hd1 hd2 hh hmi hs
  have hplus : hasChar '+' (fmtDateTime y mo d h mi s) = false := by
    simp [fmtDateTime, hasChar_append, hasChar_cons, p4, pmo, pd, ph, pmi, ps,
      show (('-' : Char) == '+') = false from rfl,
      show ((':' : Char) == '+') = false from rfl,
      show ((' ' : Char) == '+') = false from rfl]
  have hdash : countChar '-' (fmtDateTime y mo d h mi s) = 2 := by
    simp [fmtDateTime, countChar_append, countChar_cons, m4, mmo, md, mh, mmi, ms,
      show (('-' : Char) == '-') = true from rfl,
      show ((':' : Char) == '-') = false from rfl,
      show ((' ' : Char) == '-') = false from rfl]
  have hshape2 : fmtDateTime y mo d h mi s
      = (fmt4 y ++ '-' :: (fmt2 mo ++ '-' :: fmt2 d)) ++ ' ' ::
          (fmt2 h ++ ':' :: (fmt2 mi ++ ':' :: fmt2 s)) := by
    simp [fmtDateTime, List.append_assoc]
  have hAno : hasChar ' ' (fmt4 y ++ '-' :: (fmt2 mo ++ '-' :: fmt2 d)) = false := by
    simp [hasChar_append, hasChar_cons, sp4, smo, sd,
      show (('-' : Char) == ' ') = false from rfl]
  have hBno : hasChar ' ' (fmt2 h ++ ':' :: (fmt2 mi ++ ':' :: fmt2 s)) = false := by
    simp [hasChar_append, hasChar_cons, sh, smi, ss,
      show ((':' : Char) == ' ') = false from rfl]
  have conj1 : parseCommitDate (fmtDateTime y mo d h mi s)
      = some ⟨⟨y, mo, d⟩, h, mi, s⟩ := by
    unfold parseCommitDate
    rw [hplus, hdash]
    simp [hbare]
  have conj2 : parseCommitDate (fmtDateTime y mo d h mi s ++ ' ' :: offNeg0700)
      = some ⟨⟨y, mo, d⟩, h, mi, s⟩ := by
    unfold parseCommitDate
    have hc : (hasChar '+' (fmtDateTime y mo d h mi s ++ ' ' :: offNeg0700)
        || decide (2 < countChar '-' (fmtDateTime y mo d h mi s ++ ' ' :: offNeg0700)))
          = true := by
      rw [countChar_append, hdash,
        show countChar '-' (' ' :: offNeg0700) = 1 from rfl]
      simp
    rw [if_pos hc]
    have hsp : splitChar ' ' (fmtDateTime y mo d h mi s ++ ' ' :: offNeg0700)
        = (fmt4 y ++ '-' :: (fmt2 mo ++ '-' :: fmt2 d)) ::
            (fmt2 h ++ ':' :: (fmt2 mi ++ ':' :: fmt2 s)) :: [offNeg0700] := by
      rw [hshape2, List.append_assoc, List.cons_append,
        splitChar_push _ hAno, splitChar_push _ hBno,
        splitChar_single offNeg0700 rfl]
    rw [hsp]
    show parseDateTime ((fmt4 y ++ '-' :: (fmt2 mo ++ '-' :: fmt2 d)) ++ ' ' ::
        (fmt2 h ++ ':' :: (fmt2 mi ++ ':' :: fmt2 s))) = some ⟨⟨y, mo, d⟩, h, mi, s⟩
    rw [← hshape2]
    exact hbare
  have conj3 : parseCommitDate (fmtDateTime y mo d h mi s ++ ' ' :: offPos0200)
      = some ⟨⟨y, mo, d⟩, h, mi, s⟩ := by
    unfold parseCommitDate
    have hc : (hasChar '+' (fmtDateTime y mo d h mi s ++ ' ' :: offPos0200)
        || decide (2 < countChar '-' (fmtDateTime y mo d h mi s ++ ' ' :: offPos0200)))
          = true := by
      rw [hasChar_append, hplus,
        show hasChar '+' (' ' :: offPos0200) = true from rfl]
      simp
    rw [if_pos hc]
    have hsp : splitChar ' ' (fmtDateTime y mo d h mi s ++ ' ' :: offPos0200)
        = (fmt4 y ++ '-' :: (fmt2 mo ++ '-' :: fmt2 d)) ::
            (fmt2 h ++ ':' :: (fmt2 mi ++ ':' :: fmt2 s)) :: [offPos0200] := by
      rw [hshape2, List.append_assoc, List.cons_append,
        splitChar_push _ hAno, splitChar_push _ hBno,
        splitChar_single offPos0200 rfl]
    rw [hsp]
    show parseDateTime ((fmt4 y ++ '-' :: (fmt2 mo ++ '-' :: fmt2 d)) ++ ' ' ::
        (fmt2 h ++ ':' :: (fmt2 mi ++ ':' :: fmt2 s))) = some ⟨⟨y, mo, d⟩, h, mi, s⟩
    rw [← hshape2]
    exact hbare
  exact ⟨conj1, conj2, conj3, by decide⟩

/-- C5 witness: the claim timestamp 2024-06-01 10:00:00 with and without
offset tokens. -/
theorem c5_witness :
    parseCommitDate (fmtDateTime 2024 6 1 10 0 0) = some ⟨⟨2024, 6, 1⟩, 10, 0, 0⟩ ∧
    parseCommitDate (fmtDateTime 2024 6 1 10 0 0 ++ ' ' :: offNeg0700)
      = some ⟨⟨2024, 6, 1⟩, 10, 0, 0⟩ ∧
    parseCommitDate (fmtDateTime 2024 6 1 10 0 0 ++ ' ' :: offPos0200)
      = some ⟨⟨2024, 6, 1⟩, 10, 0, 0⟩ ∧
    parseCommitDate ("2024-06-01 10:00:00 -0700".toList)
      = parseCommitDate ("2024-06-01 10:00:00".toList) :=
  c5_timestamp_normalization 2024 6 1 10 0 0 (by decide) (by decide) (by decide)
    (by decide) (by decide) (by decide) (by decide) (by decide) (by decide)

end GitStats
